import Mathlib

/-!
Verification of the rule-110 simulator (`src/main.rs`).

Generations are modelled as `List Nat` (cell values are `u8`, embedded as
naturals below 256; the `<< 2` / `<< 1` shifts in the neighbourhood-code
computation are taken modulo 256, matching `u8` wrap-around).  Writes into a
buffer are `List.set`; reads are `List.getD _ 0`.  All claims that depend on
in-bounds accesses carry the corresponding length hypotheses; panic-freedom
itself is settled with the `Option`-returning checked variants further down.
-/

namespace Rule110

/-- `apply_rule` from the source: `match val { 7 | 4 | 0 => 0, _ => 1 }`. -/
def apply_rule (val : Nat) : Nat :=
  match val with
  | 7 | 4 | 0 => 0
  | _ => 1

/-- The neighbourhood code `(input[i-1] << 2) | (input[i] << 1) | input[i+1]`
computed on `u8` values (shifts wrap modulo 256).  This expression appears
verbatim in `simulate`, `simulate_rayon`, the scalar tail of `simulate_simd`
and the OpenCL kernel. -/
def code (input : List Nat) (i : Nat) : Nat :=
  (((input.getD (i - 1) 0) <<< 2) % 256) |||
    (((input.getD i 0) <<< 1) % 256) ||| (input.getD (i + 1) 0)

/-- `simulate` from the source:
`for (o, idx) in out[1..=end].iter_mut().zip(indices.iter().copied())`
with `end = input.len().saturating_sub(2)`.  The `j`-th element of the slice
`out[1..=end]` (absolute position `1 + j`) is paired with `indices[j]`; the
zip stops at `min end indices.len`. -/
def simulate (input out indices : List Nat) : List Nat :=
  let e := input.length - 2
  (List.enum (indices.take e)).foldl
    (fun o p => o.set (1 + p.1) (apply_rule (code input p.2))) out

/-- `simulate_rayon` from the source: `out[1..=end].par_iter_mut().enumerate()`
writes, for each `idx < end`, the slice element at absolute position
`i = idx + 1` with `apply_rule` of the code at `i`. -/
def simulate_rayon (input out : List Nat) : List Nat :=
  let e := input.length - 2
  (List.range e).foldl
    (fun o idx => o.set (idx + 1) (apply_rule (code input (idx + 1)))) out

/-- The per-element writes of `simulate_rayon` executed in an arbitrary
schedule `order` (rayon may interleave its workers' chunks in any order; each
element of `1..=end` is processed exactly once, which is expressed by
`order.Perm (List.range end)` in the theorems below). -/
def simulate_rayon_sched (input out : List Nat) (order : List Nat) : List Nat :=
  order.foldl
    (fun o idx => o.set (idx + 1) (apply_rule (code input (idx + 1)))) out

/-- One SIMD lane of `simulate_simd`: the mask selects 0 for codes 7, 4, 0 and
1 otherwise (`mask.select(splat(0), splat(1))`). -/
def simdLane (cc : Nat) : Nat :=
  if cc = 7 ∨ cc = 4 ∨ cc = 0 then 0 else 1

/-- One 16-lane batch of `simulate_simd` starting at index `i`: lane `j` reads
the three windows at `i-1+j`, `i+j`, `i+1+j` and stores into `out[i+j]`. -/
def simdBatch (input out : List Nat) (i : Nat) : List Nat :=
  (List.range 16).foldl
    (fun o j => o.set (i + j) (simdLane (code input (i + j)))) out

/-- The `while i + lanes <= n - 1` loop of `simulate_simd`, written with
explicit fuel (the loop advances `i` by 16 each pass, so any fuel of at least
`n` passes is enough; `simulate_simd` below supplies fuel `n`). -/
def simdLoopF (input : List Nat) (n : Nat) : Nat → List Nat → Nat → List Nat × Nat
  | 0, out, i => (out, i)
  | fuel + 1, out, i =>
    if i + 16 ≤ n - 1 then simdLoopF input n fuel (simdBatch input out i) (i + 16)
    else (out, i)

/-- `simulate_simd` from the source: copies the input when `n < 3`, otherwise
runs 16-wide batches from `i = 1` while `i + 16 ≤ n - 1` and finishes with a
scalar tail `for j in i..n-1 { out[j] = apply_rule(cc) }`. -/
def simulate_simd (input out : List Nat) : List Nat :=
  let n := input.length
  if n < 3 then input
  else
    let s := simdLoopF input n n out 1
    (List.range' s.2 (n - 1 - s.2)).foldl
      (fun o j => o.set j (apply_rule (code input j))) s.1

/-- The ternary of the OpenCL kernel: `(cc == 7 || cc == 4 || cc == 0) ? 0 : 1`. -/
def oclVal (cc : Nat) : Nat :=
  if cc = 7 ∨ cc = 4 ∨ cc = 0 then 0 else 1

/-- The `simulate_transform` kernel launched with `global_work_size
n.saturating_sub(2)`: work item `gid` computes `i = gid + 1`, returns early
when `i >= n - 1`, and otherwise writes `output[i]`.  `output` is the
freshly-allocated device buffer, whose initial contents the code never
zeroes. -/
def simulate_transform (input output : List Nat) (n : Nat) : List Nat :=
  (List.range (n - 2)).foldl
    (fun o gid =>
      let i := gid + 1
      if n - 1 ≤ i then o else o.set i (oclVal (code input i)))
    output

/-- The round loop of `simulate_ocl`: round `r` uploads `current`, launches the
kernel into a fresh uninitialised output buffer (its allocation contents are
modelled by the environment `g`, materialised as `(List.range n).map (g r)`),
reads the whole buffer back and swaps the host vectors. -/
def oclLoop (n : Nat) (g : Nat → Nat → Nat) : Nat → Nat → List Nat → List Nat
  | 0, _, current => current
  | rem + 1, r, current =>
    oclLoop n g rem (r + 1)
      (simulate_transform current ((List.range n).map (g r)) n)

/-- `simulate_ocl` from the source (pure result model): after `iterations`
rounds the final `current` is copied into the caller's buffer, which this
model returns.  `g r j` is the byte the device allocation of round `r`'s
output buffer happens to contain at position `j` — the source never clears
those buffers, so unwritten positions of the readback hold `g`. -/
def simulate_ocl (input : List Nat) (iterations : Nat) (g : Nat → Nat → Nat) : List Nat :=
  oclLoop input.length g iterations 0 input

/-- The round loop of `main` for the policy / rayon / simd backends: each
round runs the stepper with `inbuf` as input and `outbuf` as output and then
sets `inbuf = outbuf.clone()`.  The state is `(inbuf, outbuf)`; `outbuf` is
zero-initialised once, before the first round, and never re-zeroed. -/
def driverLoop (step : List Nat → List Nat → List Nat) :
    Nat → List Nat × List Nat → List Nat × List Nat
  | 0, s => s
  | k + 1, s =>
    let o := step s.1 s.2
    driverLoop step k (o, o)

/-- The `policy` backend of `main`: `indices = (1..=end).collect()` computed
once from the initial buffer, then `k` rounds of `simulate`. -/
def runPolicy (input : List Nat) (k : Nat) : List Nat :=
  let indices := List.range' 1 (input.length - 2)
  (driverLoop (fun cur out => simulate cur out indices) k
    (input, List.replicate input.length 0)).1

/-- The `rayon` backend of `main`. -/
def runRayon (input : List Nat) (k : Nat) : List Nat :=
  (driverLoop simulate_rayon k (input, List.replicate input.length 0)).1

/-- The `rayon` backend with worker writes executed in schedule `order`. -/
def runRayonSched (input : List Nat) (k : Nat) (order : List Nat) : List Nat :=
  (driverLoop (fun cur out => simulate_rayon_sched cur out order) k
    (input, List.replicate input.length 0)).1

/-- The `simd` backend of `main`. -/
def runSimd (input : List Nat) (k : Nat) : List Nat :=
  (driverLoop simulate_simd k (input, List.replicate input.length 0)).1

/-- The final population count of `main`: `par_iter().filter(v == 1).count()`. -/
def countOnes (gen : List Nat) : Nat :=
  gen.countP (fun v => v == 1)

/-! ### Canonical one-round function and write-fold machinery -/

/-- Canonical form of one round: interior positions `1 ≤ j ≤ n - 2` receive
`apply_rule (code input j)`; every other position keeps the output buffer's
previous value.  Each backend's round is proved equal to this below. -/
def stepGen (input out : List Nat) : List Nat :=
  (List.range out.length).map (fun j =>
    if 1 ≤ j ∧ j + 1 < input.length then apply_rule (code input j) else out.getD j 0)

/-- A fold that writes `h t` at each target position `t` drawn from `ts`. -/
def writeAll (h : Nat → Nat) (out : List Nat) (ts : List Nat) : List Nat :=
  ts.foldl (fun o t => o.set t (h t)) out

/-- The canonical run: `k` rounds of `stepGen` through the double-buffering
driver, starting from `main`'s zero-initialised output buffer. -/
def hostRun (input : List Nat) (k : Nat) : List Nat :=
  (driverLoop stepGen k (input, List.replicate input.length 0)).1

/-! ### Host-transfer trace of the device stepper -/

/-- The device-facing operations of one iteration of `simulate_ocl`'s round
loop, in source order: build the input buffer with `COPY_HOST_PTR` (an upload
of `current`), build a fresh output buffer, build the kernel, enqueue it,
enqueue a read of the whole output buffer into `next` (a readback into host
memory), wait for the queue, and `std::mem::swap` the two host vectors. -/
inductive OclEvent where
  | uploadInput
  | allocOutput
  | buildKernel
  | launchKernel
  | readbackOutput
  | queueFinish
  | swapHostBuffers
  deriving DecidableEq

/-- The events of one round of `simulate_ocl`, in the order the source
performs them. -/
def oclRoundEvents : List OclEvent :=
  [.uploadInput, .allocOutput, .buildKernel, .launchKernel, .readbackOutput,
    .queueFinish, .swapHostBuffers]

/-- The events of `for _ in 0..iterations { … }` in `simulate_ocl`: every
round repeats the same upload/launch/readback block. -/
def oclEvents : Nat → List OclEvent
  | 0 => []
  | k + 1 => oclEvents k ++ oclRoundEvents

/-! ### Checked (panic- and error-aware) variants -/

/-- The fallible device operations of `simulate_ocl`, each tagged with the
round in which it runs; the four setup operations run once, before the round
loop.  Every one of these carries a `?` in the source. -/
inductive OclOp where
  | findDevice
  | buildContext
  | createQueue
  | buildProgram
  | buildInputBuffer (round : Nat)
  | buildOutputBuffer (round : Nat)
  | buildKernel (round : Nat)
  | enqueueKernel (round : Nat)
  | readOutput (round : Nat)
  | finishQueue (round : Nat)
  deriving DecidableEq

/-- A device environment: which operations succeed. -/
structure OclEnv where
  ok : OclOp → Bool

/-- Stage of an operation: 0 for setup, `r + 1` for a round-`r` operation. -/
def opStage : OclOp → Nat
  | .findDevice => 0
  | .buildContext => 0
  | .createQueue => 0
  | .buildProgram => 0
  | .buildInputBuffer r => r + 1
  | .buildOutputBuffer r => r + 1
  | .buildKernel r => r + 1
  | .enqueueKernel r => r + 1
  | .readOutput r => r + 1
  | .finishQueue r => r + 1

/-- Attempt a sequence of fallible operations in order; stop at the first one
the environment fails.  Returns the outcome and the list of operations
actually attempted (each appears at most once — there is no retry anywhere in
the source). -/
def attemptOps (env : OclEnv) : List OclOp → Except OclOp Unit × List OclOp
  | [] => (.ok (), [])
  | op :: ops =>
    if env.ok op then
      let rest := attemptOps env ops
      (rest.1, op :: rest.2)
    else (.error op, [op])

/-- The fallible operations of one round of `simulate_ocl`, in source order:
input-buffer build (with the host upload), output-buffer build, kernel build,
`kernel.enq()`, `output_buf.read(..).enq()`, `queue.finish()`. -/
def roundOps (r : Nat) : List OclOp :=
  [.buildInputBuffer r, .buildOutputBuffer r, .buildKernel r, .enqueueKernel r,
    .readOutput r, .finishQueue r]

/-- One round of `simulate_ocl` with every fallible operation checked against
the environment; the first failure is returned as the error.  On success the
round result is the kernel output read back over round `r`'s fresh
allocation. -/
def oclRoundChecked (env : OclEnv) (g : Nat → Nat → Nat) (n r : Nat)
    (current : List Nat) : Except OclOp (List Nat) × List OclOp :=
  match attemptOps env (roundOps r) with
  | (.ok _, t) => (.ok (simulate_transform current ((List.range n).map (g r)) n), t)
  | (.error e, t) => (.error e, t)

/-- The checked round loop: stops at the first failing round (`?` propagates
the error out of `simulate_ocl` at once). -/
def oclLoopChecked (env : OclEnv) (g : Nat → Nat → Nat) (n : Nat) :
    Nat → Nat → List Nat → Except OclOp (List Nat) × List OclOp
  | 0, _, current => (.ok current, [])
  | rem + 1, r, current =>
    match oclRoundChecked env g n r current with
    | (.error e, t) => (.error e, t)
    | (.ok next, t) =>
      let rest := oclLoopChecked env g n rem (r + 1) next
      (rest.1, t ++ rest.2)

/-- The setup operations of `simulate_ocl`, in source order. -/
def setupOps : List OclOp :=
  [.findDevice, .buildContext, .createQueue, .buildProgram]

/-- `simulate_ocl` with its full error behaviour: device discovery, context,
queue and program build, then the round loop; the first failure propagates
immediately.  The second component is the trace of attempted operations. -/
def simulate_oclChecked (input : List Nat) (iterations : Nat) (env : OclEnv)
    (g : Nat → Nat → Nat) : Except OclOp (List Nat) × List OclOp :=
  if env.ok .findDevice then
    if env.ok .buildContext then
      if env.ok .createQueue then
        if env.ok .buildProgram then
          let res := oclLoopChecked env g input.length iterations 0 input
          (res.1, setupOps ++ res.2)
        else (.error .buildProgram, setupOps)
      else (.error .createQueue, [.findDevice, .buildContext, .createQueue])
    else (.error .buildContext, [.findDevice, .buildContext])
  else (.error .findDevice, [.findDevice])

/-- The caller's `out` buffer after `simulate_ocl(input, out, iterations)`
returns: `out.copy_from_slice(&current)` is the last statement of the
function and runs only on the success path, so on any error `out` is exactly
what it was before the call. -/
def oclCallerOut (input out : List Nat) (iterations : Nat) (env : OclEnv)
    (g : Nat → Nat → Nat) : List Nat :=
  match (simulate_oclChecked input iterations env g).1 with
  | .ok current => current
  | .error _ => out

/-- `simulate` with every slice and index access checked, mirroring the Rust
panic conditions: the slice `out[1..=end]` requires `end + 1 ≤ out.len`, and
each processed `idx` requires `idx ≥ 1` (else `idx - 1` underflows) and reads
`input` at `idx - 1`, `idx`, `idx + 1`. -/
def simulateChecked (input out indices : List Nat) : Option (List Nat) :=
  let e := input.length - 2
  if e + 1 ≤ out.length then
    (List.enum (indices.take e)).foldlM
      (fun o p =>
        if 1 ≤ p.2 then do
          let l ← input.get? (p.2 - 1)
          let m ← input.get? p.2
          let r ← input.get? (p.2 + 1)
          pure (o.set (1 + p.1)
            (apply_rule (((l <<< 2) % 256) ||| ((m <<< 1) % 256) ||| r)))
        else none)
      out
  else none

/-- `simulate_rayon` with every access checked, as in `simulateChecked`. -/
def simulate_rayonChecked (input out : List Nat) : Option (List Nat) :=
  let e := input.length - 2
  if e + 1 ≤ out.length then
    (List.range e).foldlM
      (fun o idx => do
        let l ← input.get? (idx + 1 - 1)
        let m ← input.get? (idx + 1)
        let r ← input.get? (idx + 1 + 1)
        pure (o.set (idx + 1)
          (apply_rule (((l <<< 2) % 256) ||| ((m <<< 1) % 256) ||| r))))
      out
  else none

/-- Concrete environment used to exercise the error path: the round-1 kernel
launch fails, everything else succeeds. -/
def envEnqFail : OclEnv :=
  ⟨fun o => !(o == OclOp.enqueueKernel 1)⟩

/-- Concrete all-zero allocation environment. -/
def gZero : Nat → Nat → Nat := fun _ _ => 0

/-- Concrete allocation environment whose bytes are all 5. -/
def gFive : Nat → Nat → Nat := fun _ _ => 5

theorem apply_rule_eq (c : Nat) :
    apply_rule c = if c = 7 ∨ c = 4 ∨ c = 0 then 0 else 1 := by
  rcases c with _ | _ | _ | _ | _ | _ | _ | _ | c <;> simp [apply_rule]

theorem getD_set (l : List Nat) (i j v : Nat) :
    (l.set i v).getD j 0 = if i = j ∧ j < l.length then v else l.getD j 0 := by
  simp only [List.getD_eq_getElem?_getD, List.getElem?_set]
  by_cases h : i = j
  · subst h
    by_cases h2 : i < l.length
    · simp [h2]
    · rw [List.getElem?_eq_none (Nat.le_of_not_lt h2)]
      simp [h2]
  · simp [h]

theorem getD_eq_default (l : List Nat) (j : Nat) (h : l.length ≤ j) :
    l.getD j 0 = 0 := by
  simp only [List.getD_eq_getElem?_getD]
  rw [List.getElem?_eq_none h]
  rfl

theorem writeAll_length (h : Nat → Nat) (out : List Nat) (ts : List Nat) :
    (writeAll h out ts).length = out.length := by
  induction ts generalizing out with
  | nil => rfl
  | cons t ts ih => simp [writeAll, List.foldl_cons] at ih ⊢; rw [ih, List.length_set]

theorem writeAll_cons (h : Nat → Nat) (out : List Nat) (t : Nat) (ts : List Nat) :
    writeAll h out (t :: ts) = writeAll h (out.set t (h t)) ts := rfl

theorem writeAll_getD (h : Nat → Nat) (out : List Nat) (ts : List Nat) (j : Nat) :
    (writeAll h out ts).getD j 0 =
      if j ∈ ts ∧ j < out.length then h j else out.getD j 0 := by
  induction ts generalizing out with
  | nil => simp [writeAll]
  | cons t ts ih =>
    rw [writeAll_cons, ih, List.length_set, getD_set]
    simp only [List.mem_cons]
    by_cases hmem : j ∈ ts
    · by_cases hj : j < out.length <;> simp [hmem, hj]
    · by_cases ht : t = j
      · subst ht
        by_cases hj : t < out.length <;> simp [hmem, hj]
      · have ht2 : ¬j = t := fun hc => ht hc.symm
        simp [hmem, ht, ht2]

theorem foldl_eq_writeAll {α : Type} (l : List α) (F : α → Nat) (G : α → Nat)
    (h : Nat → Nat) (out : List Nat) (hFG : ∀ p ∈ l, G p = h (F p)) :
    l.foldl (fun o p => o.set (F p) (G p)) out = writeAll h out (l.map F) := by
  induction l generalizing out with
  | nil => rfl
  | cons p l ih =>
    simp only [List.foldl_cons, List.map_cons]
    rw [writeAll_cons, hFG p (List.mem_cons_self p l)]
    exact ih _ (fun q hq => hFG q (List.mem_cons_of_mem p hq))

theorem list_ext_getD (l₁ l₂ : List Nat) (hlen : l₁.length = l₂.length)
    (h : ∀ j, l₁.getD j 0 = l₂.getD j 0) : l₁ = l₂ := by
  refine List.ext_getElem hlen (fun n h₁ h₂ => ?_)
  have := h n
  rwa [List.getD_eq_getElem l₁ 0 h₁, List.getD_eq_getElem l₂ 0 h₂] at this

theorem stepGen_length (input out : List Nat) :
    (stepGen input out).length = out.length := by
  simp [stepGen]

theorem foldl_length_invariant {α : Type} (f : List Nat → α → List Nat) (l : List α)
    (hf : ∀ o x, (f o x).length = o.length) :
    ∀ out, (l.foldl f out).length = out.length := by
  induction l with
  | nil => intro out; rfl
  | cons p l ih => intro out; rw [List.foldl_cons, ih, hf]

theorem stepGen_getD (input out : List Nat) (j : Nat) :
    (stepGen input out).getD j 0 =
      if j < out.length then
        (if 1 ≤ j ∧ j + 1 < input.length then apply_rule (code input j) else out.getD j 0)
      else 0 := by
  simp only [stepGen, List.getD_eq_getElem?_getD, List.getElem?_map, List.getElem?_range']
  by_cases hj : j < out.length
  · rw [List.getElem?_range hj]
    simp [hj]
  · rw [List.getElem?_eq_none (by simpa using Nat.le_of_not_lt hj)]
    simp [hj]

/-! ### One-round characterisations of the four steppers -/

theorem simulate_length (input out indices : List Nat) :
    (simulate input out indices).length = out.length := by
  show ((List.enum (indices.take (input.length - 2))).foldl
    (fun (o : List Nat) (p : Nat × Nat) =>
      o.set (1 + p.1) (apply_rule (code input p.2))) out).length = out.length
  exact foldl_length_invariant _ (List.enum (indices.take (input.length - 2)))
    (fun o p => List.length_set o (1 + p.1) _) out

theorem simulate_rayon_length (input out : List Nat) :
    (simulate_rayon input out).length = out.length :=
  foldl_length_invariant _ _ (fun o idx => List.length_set o (idx + 1) _) out

theorem simulate_rayon_sched_length (input out order : List Nat) :
    (simulate_rayon_sched input out order).length = out.length :=
  foldl_length_invariant _ _ (fun o idx => List.length_set o (idx + 1) _) out

theorem simulate_transform_length (input output : List Nat) (n : Nat) :
    (simulate_transform input output n).length = output.length := by
  refine foldl_length_invariant _ _ (fun o gid => ?_) output
  dsimp only
  split
  · rfl
  · rw [List.length_set]

/-- Positional behaviour of the zip in `simulate`: the `j`-th processed pair
writes slot `1 + j` with the rule value at `indices[j]`. -/
theorem enumFrom_fold_getD (v : Nat → Nat) (l : List Nat) :
    ∀ (s : Nat) (out : List Nat) (j : Nat),
    ((List.enumFrom s l).foldl (fun o p => o.set (1 + p.1) (v p.2)) out).getD j 0 =
      if 1 + s ≤ j ∧ j < 1 + s + l.length ∧ j < out.length then v (l.getD (j - 1 - s) 0)
      else out.getD j 0 := by
  induction l with
  | nil =>
    intro s out j
    rw [show List.enumFrom s ([] : List Nat) = [] from rfl, List.foldl_nil,
      if_neg (by simp only [List.length_nil]; omega)]
  | cons a l ih =>
    intro s out j
    rw [List.enumFrom_cons, List.foldl_cons, ih (s + 1), List.length_set, getD_set]
    simp only [List.length_cons]
    by_cases h1 : 1 + (s + 1) ≤ j ∧ j < 1 + (s + 1) + l.length ∧ j < out.length
    · rw [if_pos h1, if_pos (by omega)]
      congr 1
      have hj : j - 1 - s = (j - 1 - (s + 1)) + 1 := by omega
      rw [hj, List.getD_cons_succ]
    · rw [if_neg h1]
      by_cases h2 : 1 + s = j ∧ j < out.length
      · rw [if_pos h2, if_pos (by omega)]
        have hj : j - 1 - s = 0 := by omega
        rw [hj, List.getD_cons_zero]
      · rw [if_neg h2, if_neg (by omega)]

/-- `simulate` characterised pointwise: position `j` receives the rule value
of `indices[j - 1]` when `1 ≤ j ≤ min (n - 2) indices.len` (and `j` is in
bounds), and is untouched otherwise. -/
theorem simulate_getD (input out indices : List Nat) (j : Nat) :
    (simulate input out indices).getD j 0 =
      if 1 ≤ j ∧ j ≤ min (input.length - 2) indices.length ∧ j < out.length
      then apply_rule (code input (indices.getD (j - 1) 0))
      else out.getD j 0 := by
  have hfold := enumFrom_fold_getD (fun x => apply_rule (code input x))
      (indices.take (input.length - 2)) 0 out j
  simp only [simulate, List.enum_eq_enumFrom]
  rw [hfold, List.length_take]
  by_cases hc : 1 ≤ j ∧ j ≤ min (input.length - 2) indices.length ∧ j < out.length
  · rw [if_pos (by omega), if_pos hc]
    congr 2
    have h0 : j - 1 - 0 = j - 1 := by omega
    rw [h0, List.getD_eq_getElem?_getD, List.getD_eq_getElem?_getD, List.getElem?_take,
      if_pos (by omega)]
  · rw [if_neg (by omega), if_neg hc]

/-- With the natural index sequence `1..=n-2` (the one `main` builds),
`simulate` computes exactly the canonical round. -/
theorem simulate_nat_eq_stepGen (input out : List Nat) :
    simulate input out (List.range' 1 (input.length - 2)) = stepGen input out := by
  refine list_ext_getD _ _ (by rw [simulate_length, stepGen_length]) (fun j => ?_)
  rw [simulate_getD, stepGen_getD]
  have hrlen : (List.range' 1 (input.length - 2)).length = input.length - 2 := by simp
  by_cases hj : j < out.length
  · by_cases hc : 1 ≤ j ∧ j + 1 < input.length
    · rw [if_pos (by rw [hrlen]; omega), if_pos hj, if_pos hc]
      congr 2
      have hlt : j - 1 < (List.range' 1 (input.length - 2)).length := by rw [hrlen]; omega
      rw [List.getD_eq_getElem _ 0 hlt, List.getElem_range']
      omega
    · rw [if_neg (by rw [hrlen]; omega), if_pos hj, if_neg hc]
  · rw [if_neg (by omega), if_neg hj, getD_eq_default _ _ (Nat.le_of_not_lt hj)]

/-- `simulate_rayon` computes exactly the canonical round. -/
theorem simulate_rayon_eq_stepGen (input out : List Nat) :
    simulate_rayon input out = stepGen input out := by
  have hfold := foldl_eq_writeAll (List.range (input.length - 2))
      (fun idx => idx + 1) (fun idx => apply_rule (code input (idx + 1)))
      (fun t => apply_rule (code input t)) out (fun p _ => rfl)
  have hr : simulate_rayon input out =
      writeAll (fun t => apply_rule (code input t)) out
        ((List.range (input.length - 2)).map (fun idx => idx + 1)) := hfold
  refine list_ext_getD _ _ (by rw [hr, writeAll_length, stepGen_length]) (fun j => ?_)
  rw [hr, writeAll_getD, stepGen_getD]
  have hmem : j ∈ (List.range (input.length - 2)).map (fun idx => idx + 1) ↔
      1 ≤ j ∧ j + 1 < input.length := by
    simp only [List.mem_map, List.mem_range]
    constructor
    · rintro ⟨i, hi, rfl⟩; omega
    · intro hij; exact ⟨j - 1, by omega, by omega⟩
  by_cases hj : j < out.length
  · by_cases hc : 1 ≤ j ∧ j + 1 < input.length
    · rw [if_pos ⟨hmem.mpr hc, hj⟩, if_pos hj, if_pos hc]
    · rw [if_neg (fun hh => hc (hmem.mp hh.1)), if_pos hj, if_neg hc]
  · rw [if_neg (fun hh => hj hh.2), if_neg hj, getD_eq_default _ _ (Nat.le_of_not_lt hj)]

/-- Any schedule that processes each interior index exactly once yields the
same buffer as the in-order data-parallel round: the per-index writes target
pairwise distinct slots and read only the immutable input. -/
theorem simulate_rayon_sched_eq (input out order : List Nat)
    (hord : order.Perm (List.range (input.length - 2))) :
    simulate_rayon_sched input out order = simulate_rayon input out := by
  have hcomm : ∀ x ∈ order, ∀ y ∈ order, ∀ z : List Nat,
      ((z.set (x + 1) (apply_rule (code input (x + 1)))).set (y + 1)
        (apply_rule (code input (y + 1)))) =
      ((z.set (y + 1) (apply_rule (code input (y + 1)))).set (x + 1)
        (apply_rule (code input (x + 1)))) := by
    intro x _ y _ z
    by_cases hxy : x = y
    · subst hxy; rfl
    · exact List.set_comm _ _ z (by omega)
  exact hord.foldl_eq' hcomm out

/-- The OpenCL kernel's guard `if (i >= n - 1) return` never fires for a
launch of `n - 2` work items, so one kernel launch is one `simulate_rayon`
round (with `oclVal` in place of `apply_rule`, which agree). -/
theorem simulate_transform_eq_rayon (input output : List Nat) (n : Nat)
    (hn : n = input.length) :
    simulate_transform input output n = simulate_rayon input output := by
  subst hn
  unfold simulate_transform simulate_rayon
  refine List.foldl_ext _ _ output (fun o gid hgid => ?_)
  have hgid2 : gid < input.length - 2 := List.mem_range.mp hgid
  show (if input.length - 1 ≤ gid + 1 then o
    else o.set (gid + 1) (oclVal (code input (gid + 1)))) = _
  rw [if_neg (by omega)]
  congr 1
  rw [apply_rule_eq]
  rfl

/-! ### The vector stepper equals the canonical round -/

theorem simdLane_eq (c : Nat) : simdLane c = apply_rule c := by
  rw [apply_rule_eq]
  rfl

theorem writeAll_append (h : Nat → Nat) (out : List Nat) (ts₁ ts₂ : List Nat) :
    writeAll h (writeAll h out ts₁) ts₂ = writeAll h out (ts₁ ++ ts₂) := by
  unfold writeAll
  rw [List.foldl_append]

theorem simdBatch_eq_writeAll (input out : List Nat) (i : Nat) :
    simdBatch input out i =
      writeAll (fun t => simdLane (code input t)) out (List.range' i 16) := by
  unfold simdBatch
  rw [foldl_eq_writeAll (List.range 16) (fun j => i + j)
    (fun j => simdLane (code input (i + j))) (fun t => simdLane (code input t)) out
    (fun p _ => rfl), List.range'_eq_map_range]

/-- The batch loop of `simulate_simd` performs some number `m` of 16-wide
batches: it writes exactly the positions `i, i+1, …, i+16m-1` and stops at
the first position from which a further full batch would not fit. -/
theorem simdLoopF_spec (input : List Nat) (n : Nat) :
    ∀ (fuel i : Nat) (out : List Nat), n - 1 ≤ i + fuel →
      ∃ m, simdLoopF input n fuel out i =
          (writeAll (fun t => simdLane (code input t)) out (List.range' i (16 * m)),
            i + 16 * m) ∧
        ¬(i + 16 * m + 16 ≤ n - 1) ∧ (16 * m = 0 ∨ i + 16 * m ≤ n - 1) := by
  intro fuel
  induction fuel with
  | zero =>
    intro i out hfuel
    refine ⟨0, ?_, by omega, Or.inl rfl⟩
    simp [simdLoopF, writeAll]
  | succ fuel ih =>
    intro i out hfuel
    by_cases hcond : i + 16 ≤ n - 1
    · obtain ⟨m', heq', hstop', hle'⟩ := ih (i + 16) (simdBatch input out i) (by omega)
      refine ⟨m' + 1, ?_, by omega, Or.inr (by omega)⟩
      show simdLoopF input n (fuel + 1) out i = _
      simp only [simdLoopF]
      rw [if_pos hcond, heq', simdBatch_eq_writeAll, writeAll_append,
        List.range'_append_1 i 16 (16 * m')]
      have h16 : 16 * m' + 16 = 16 * (m' + 1) := by omega
      have hidx : i + 16 + 16 * m' = i + 16 * (m' + 1) := by omega
      rw [h16, hidx]
    · refine ⟨0, ?_, by omega, Or.inl rfl⟩
      simp only [simdLoopF]
      rw [if_neg hcond]
      simp [writeAll]

theorem simulate_simd_eq_stepGen (input out : List Nat) (h3 : 3 ≤ input.length) :
    simulate_simd input out = stepGen input out := by
  have hn3 : ¬input.length < 3 := by omega
  obtain ⟨m, heq, hstop, hle⟩ :=
    simdLoopF_spec input input.length input.length 1 out (by omega)
  have hbody : simulate_simd input out =
      (List.range' (1 + 16 * m) (input.length - 1 - (1 + 16 * m))).foldl
        (fun o j => o.set j (apply_rule (code input j)))
        (writeAll (fun t => simdLane (code input t)) out (List.range' 1 (16 * m))) := by
    simp only [simulate_simd]
    rw [if_neg hn3, heq]
  rw [hbody, foldl_eq_writeAll _ (fun j => j) (fun j => apply_rule (code input j))
    (fun t => apply_rule (code input t)) _ (fun p _ => rfl), List.map_id']
  refine list_ext_getD _ _
    (by rw [writeAll_length, writeAll_length, stepGen_length]) (fun j => ?_)
  rw [writeAll_getD, writeAll_length, writeAll_getD, stepGen_getD]
  by_cases hj : j < out.length
  · by_cases hc : 1 ≤ j ∧ j + 1 < input.length
    · by_cases htail : j ∈ List.range' (1 + 16 * m) (input.length - 1 - (1 + 16 * m))
      · rw [if_pos ⟨htail, hj⟩, if_pos hj, if_pos hc]
      · have hloop : j ∈ List.range' 1 (16 * m) := by
          rw [List.mem_range'_1] at htail ⊢
          omega
        rw [if_neg (fun hh => htail hh.1), if_pos ⟨hloop, hj⟩, if_pos hj, if_pos hc,
          simdLane_eq]
    · have ht : ¬j ∈ List.range' (1 + 16 * m) (input.length - 1 - (1 + 16 * m)) := by
        rw [List.mem_range'_1]
        omega
      have hl2 : ¬j ∈ List.range' 1 (16 * m) := by
        rw [List.mem_range'_1]
        omega
      rw [if_neg (fun hh => ht hh.1), if_neg (fun hh => hl2 hh.1), if_pos hj, if_neg hc]
  · rw [if_neg (fun hh => hj hh.2), if_neg (fun hh => hj hh.2), if_neg hj,
      getD_eq_default _ _ (Nat.le_of_not_lt hj)]

/-! ### Driver-level machinery -/

theorem getD_map_range (f : Nat → Nat) (n j : Nat) (hj : j < n) :
    ((List.range n).map f).getD j 0 = f j := by
  rw [List.getD_eq_getElem?_getD, List.getElem?_map, List.getElem?_range hj]
  rfl

theorem getD_replicate_zero (n j : Nat) : (List.replicate n (0 : Nat)).getD j 0 = 0 := by
  by_cases hj : j < n
  · rw [List.getD_eq_getElem _ _ (by simpa using hj), List.getElem_replicate]
  · exact getD_eq_default _ _ (by simpa using Nat.le_of_not_lt hj)

theorem driverLoop_congr (step₁ step₂ : List Nat → List Nat → List Nat) (n : Nat)
    (hstep : ∀ cur out, cur.length = n → out.length = n → step₁ cur out = step₂ cur out)
    (hlen : ∀ cur out, cur.length = n → out.length = n → (step₂ cur out).length = n) :
    ∀ (k : Nat) (s : List Nat × List Nat), s.1.length = n → s.2.length = n →
      driverLoop step₁ k s = driverLoop step₂ k s := by
  intro k
  induction k with
  | zero => intro s h1 h2; rfl
  | succ k ih =>
    intro s h1 h2
    show driverLoop step₁ k (step₁ s.1 s.2, step₁ s.1 s.2) =
      driverLoop step₂ k (step₂ s.1 s.2, step₂ s.1 s.2)
    rw [hstep s.1 s.2 h1 h2]
    exact ih (step₂ s.1 s.2, step₂ s.1 s.2) (hlen s.1 s.2 h1 h2) (hlen s.1 s.2 h1 h2)

theorem driverLoop_fix (step : List Nat → List Nat → List Nat) (z : List Nat)
    (hz : step z z = z) : ∀ k, driverLoop step k (z, z) = (z, z) := by
  intro k
  induction k with
  | zero => rfl
  | succ k ih =>
    show driverLoop step k (step z z, step z z) = (z, z)
    rw [hz]
    exact ih

theorem driverLoop_stepGen_length (n : Nat) :
    ∀ (k : Nat) (s : List Nat × List Nat), s.1.length = n → s.2.length = n →
      (driverLoop stepGen k s).1.length = n ∧ (driverLoop stepGen k s).2.length = n := by
  intro k
  induction k with
  | zero => intro s h1 h2; exact ⟨h1, h2⟩
  | succ k ih =>
    intro s h1 h2
    have hl : (stepGen s.1 s.2).length = n := by rw [stepGen_length, h2]
    exact ih (stepGen s.1 s.2, stepGen s.1 s.2) hl hl

theorem hostRun_length (input : List Nat) (k : Nat) :
    (hostRun input k).length = input.length :=
  (driverLoop_stepGen_length input.length k _ rfl (by simp)).1

theorem runPolicy_eq_hostRun (input : List Nat) (k : Nat) :
    runPolicy input k = hostRun input k := by
  unfold runPolicy hostRun
  refine congrArg Prod.fst (driverLoop_congr _ stepGen input.length
    (fun cur out hcur hout => ?_)
    (fun cur out hcur hout => by rw [stepGen_length, hout]) k _ rfl (by simp))
  rw [← hcur]
  exact simulate_nat_eq_stepGen cur out

theorem runRayon_eq_hostRun (input : List Nat) (k : Nat) :
    runRayon input k = hostRun input k := by
  unfold runRayon hostRun
  exact congrArg Prod.fst (driverLoop_congr _ stepGen input.length
    (fun cur out hcur hout => simulate_rayon_eq_stepGen cur out)
    (fun cur out hcur hout => by rw [stepGen_length, hout]) k _ rfl (by simp))

theorem runRayonSched_eq_hostRun (input : List Nat) (k : Nat) (order : List Nat)
    (hord : order.Perm (List.range (input.length - 2))) :
    runRayonSched input k order = hostRun input k := by
  unfold runRayonSched hostRun
  refine congrArg Prod.fst (driverLoop_congr _ stepGen input.length
    (fun cur out hcur hout => ?_)
    (fun cur out hcur hout => by rw [stepGen_length, hout]) k _ rfl (by simp))
  rw [simulate_rayon_sched_eq cur out order (by rw [hcur]; exact hord)]
  exact simulate_rayon_eq_stepGen cur out

theorem stepGen_congr_out (input o₁ o₂ : List Nat) (hlen : o₁.length = o₂.length)
    (h : ∀ j, j < o₁.length → ¬(1 ≤ j ∧ j + 1 < input.length) →
      o₁.getD j 0 = o₂.getD j 0) :
    stepGen input o₁ = stepGen input o₂ := by
  refine list_ext_getD _ _ (by rw [stepGen_length, stepGen_length, hlen]) (fun j => ?_)
  rw [stepGen_getD, stepGen_getD, hlen]
  by_cases hj : j < o₂.length
  · by_cases hc : 1 ≤ j ∧ j + 1 < input.length
    · simp [hj, hc]
    · simp only [if_pos hj, if_neg hc]
      exact h j (by omega) hc
  · simp [hj]

/-- Core device/host simulation argument: as long as every round's output
allocation holds `0` at the positions the kernel does not write (`0` and
`n-1`; everything, when `n < 3`, is one of those two), the OpenCL loop agrees
with the canonical driver. -/
theorem oclLoop_eq_driver (g : Nat → Nat → Nat) (n : Nat)
    (hg : ∀ r, g r 0 = 0 ∧ g r (n - 1) = 0) :
    ∀ (rem r : Nat) (cur out : List Nat), cur.length = n → out.length = n →
      (∀ j, j < n → ¬(1 ≤ j ∧ j + 1 < n) → out.getD j 0 = 0) →
      oclLoop n g rem r cur = (driverLoop stepGen rem (cur, out)).1 := by
  intro rem
  induction rem with
  | zero => intro r cur out h1 h2 h3; rfl
  | succ rem ih =>
    intro r cur out h1 h2 h3
    have hstep : simulate_transform cur ((List.range n).map (g r)) n = stepGen cur out := by
      rw [simulate_transform_eq_rayon cur _ n h1.symm, simulate_rayon_eq_stepGen]
      refine stepGen_congr_out _ _ _ (by simp [h2]) (fun j hj hni => ?_)
      have hjn : j < n := by simpa using hj
      have hcase : j = 0 ∨ j + 1 = n := by rw [h1] at hni; omega
      rw [getD_map_range _ _ _ hjn, h3 j hjn (by rw [h1] at hni; exact hni)]
      rcases hcase with hc | hc
      · rw [hc]; exact (hg r).1
      · rw [show j = n - 1 by omega]; exact (hg r).2
    show oclLoop n g rem (r + 1) (simulate_transform cur ((List.range n).map (g r)) n) =
      (driverLoop stepGen rem (stepGen cur out, stepGen cur out)).1
    rw [hstep]
    refine ih (r + 1) (stepGen cur out) (stepGen cur out)
      (by rw [stepGen_length, h2]) (by rw [stepGen_length, h2]) (fun j hj hni => ?_)
    rw [stepGen_getD, h2, if_pos hj, if_neg (by rw [h1]; exact hni)]
    exact h3 j hj hni

/-- With boundary-zero allocations the device run equals the canonical run. -/
theorem simulate_ocl_eq_hostRun (input : List Nat) (k : Nat) (g : Nat → Nat → Nat)
    (hg : ∀ r, g r 0 = 0 ∧ g r (input.length - 1) = 0) :
    simulate_ocl input k g = hostRun input k := by
  unfold simulate_ocl hostRun
  exact oclLoop_eq_driver g input.length hg k 0 input (List.replicate input.length 0)
    rfl (by simp) (fun j hj hni => getD_replicate_zero _ _)

theorem runSimd_eq_hostRun (input : List Nat) (k : Nat) (h3 : 3 ≤ input.length) :
    runSimd input k = hostRun input k := by
  unfold runSimd hostRun
  exact congrArg Prod.fst (driverLoop_congr _ stepGen input.length
    (fun cur out hcur hout => simulate_simd_eq_stepGen cur out (by omega))
    (fun cur out hcur hout => by rw [stepGen_length, hout]) k _ rfl (by simp))

/-! ### Zero generations and short generations -/

theorem code_replicate_zero (n j : Nat) : code (List.replicate n 0) j = 0 := by
  unfold code
  rw [getD_replicate_zero, getD_replicate_zero, getD_replicate_zero]
  decide

theorem stepGen_zero (n : Nat) :
    stepGen (List.replicate n 0) (List.replicate n 0) = List.replicate n 0 := by
  refine list_ext_getD _ _ (by simp [stepGen_length]) (fun j => ?_)
  rw [stepGen_getD, getD_replicate_zero]
  by_cases hj : j < n
  · rw [if_pos (by simpa using hj)]
    by_cases hc : 1 ≤ j ∧ j + 1 < (List.replicate n (0 : Nat)).length
    · rw [if_pos hc, code_replicate_zero]
      rfl
    · rw [if_neg hc]
  · rw [if_neg (by simpa using hj)]

theorem hostRun_zero (n k : Nat) : hostRun (List.replicate n 0) k = List.replicate n 0 := by
  unfold hostRun
  rw [List.length_replicate, driverLoop_fix stepGen (List.replicate n 0) (stepGen_zero n) k]

theorem driverLoop_simd_short (input : List Nat) (h3 : input.length < 3) :
    ∀ (k : Nat) (s : List Nat × List Nat), s.1 = input →
      (driverLoop simulate_simd k s).1 = input := by
  intro k
  induction k with
  | zero => intro s h; exact h
  | succ k ih =>
    intro s h
    show (driverLoop simulate_simd k (simulate_simd s.1 s.2, simulate_simd s.1 s.2)).1 = input
    have hs : simulate_simd s.1 s.2 = input := by
      rw [h]
      simp only [simulate_simd]
      rw [if_pos h3]
    rw [hs]
    exact ih _ rfl

/-- For `n < 3` the vector backend really is a no-op (it copies its input). -/
theorem runSimd_short (input : List Nat) (k : Nat) (h3 : input.length < 3) :
    runSimd input k = input :=
  driverLoop_simd_short input h3 k _ rfl

/-- For `n < 3` the sequential backend's round writes nothing, so from the
first round on the result is the zero-initialised output buffer — not the
input. -/
theorem runPolicy_short (input : List Nat) (k : Nat) (h3 : input.length < 3) (hk : 1 ≤ k) :
    runPolicy input k = List.replicate input.length 0 := by
  unfold runPolicy
  obtain ⟨k', rfl⟩ : ∃ k', k = k' + 1 := ⟨k - 1, by omega⟩
  have hidx : List.range' 1 (input.length - 2) = [] := by
    rw [show input.length - 2 = 0 by omega]
    rfl
  rw [hidx]
  have hsim : ∀ cur out : List Nat, simulate cur out [] = out := by
    intro cur out
    show (List.enum (([] : List Nat).take (cur.length - 2))).foldl _ out = out
    rw [List.take_nil]
    rfl
  show (driverLoop (fun cur out => simulate cur out []) k'
    (simulate input (List.replicate input.length 0) [],
      simulate input (List.replicate input.length 0) [])).1 = List.replicate input.length 0
  rw [hsim input (List.replicate input.length 0),
    driverLoop_fix _ (List.replicate input.length 0) (hsim _ _) k']

/-- For `n < 3` the data-parallel backend behaves like the sequential one:
the zero buffer survives. -/
theorem runRayon_short (input : List Nat) (k : Nat) (h3 : input.length < 3) (hk : 1 ≤ k) :
    runRayon input k = List.replicate input.length 0 := by
  unfold runRayon
  obtain ⟨k', rfl⟩ : ∃ k', k = k' + 1 := ⟨k - 1, by omega⟩
  have hsim : ∀ cur out : List Nat, cur.length < 3 → simulate_rayon cur out = out := by
    intro cur out hc
    show (List.range (cur.length - 2)).foldl _ out = out
    rw [show cur.length - 2 = 0 by omega]
    rfl
  show (driverLoop simulate_rayon k'
    (simulate_rayon input (List.replicate input.length 0),
      simulate_rayon input (List.replicate input.length 0))).1 = List.replicate input.length 0
  rw [hsim input _ h3,
    driverLoop_fix _ (List.replicate input.length 0)
      (hsim _ _ (by simp only [List.length_replicate]; exact h3)) k']

/-- For `n < 3` the kernel writes nothing at all, so each device round's
readback returns the raw allocation contents; after `k ≥ 1` rounds the result
is the final round's allocation. -/
theorem oclLoop_short (n : Nat) (g : Nat → Nat → Nat) (hn : n < 3) :
    ∀ (rem r : Nat) (cur : List Nat), 1 ≤ rem →
      oclLoop n g rem r cur = (List.range n).map (g (r + rem - 1)) := by
  intro rem
  induction rem with
  | zero => intro r cur h; omega
  | succ rem ih =>
    intro r cur h
    have htr : ∀ cur2 out2 : List Nat, simulate_transform cur2 out2 n = out2 := by
      intro cur2 out2
      show (List.range (n - 2)).foldl _ out2 = out2
      rw [show n - 2 = 0 by omega]
      rfl
    show oclLoop n g rem (r + 1) (simulate_transform cur ((List.range n).map (g r)) n) =
      (List.range n).map (g (r + (rem + 1) - 1))
    rcases Nat.eq_zero_or_pos rem with h0 | hpos
    · subst h0
      show simulate_transform cur ((List.range n).map (g r)) n = _
      rw [htr, show r + (0 + 1) - 1 = r by omega]
    · rw [ih (r + 1) _ hpos, show r + 1 + rem - 1 = r + (rem + 1) - 1 by omega]

theorem simulate_ocl_short (input : List Nat) (k : Nat) (g : Nat → Nat → Nat)
    (h3 : input.length < 3) (hk : 1 ≤ k) :
    simulate_ocl input k g = (List.range input.length).map (g (k - 1)) := by
  unfold simulate_ocl
  rw [oclLoop_short input.length g h3 k 0 input hk, show 0 + k - 1 = k - 1 by omega]

theorem countOnes_replicate_zero (n : Nat) : countOnes (List.replicate n 0) = 0 := by
  induction n with
  | zero => rfl
  | succ n ih =>
    rw [List.replicate_succ]
    show List.countP _ (0 :: List.replicate n 0) = 0
    rw [List.countP_cons]
    simp only [countOnes] at ih
    simp [ih]

/-! ### Host-transfer trace facts -/

theorem oclEvents_counts (k : Nat) :
    (oclEvents k).count OclEvent.readbackOutput = k ∧
      (oclEvents k).count OclEvent.uploadInput = k := by
  induction k with
  | zero => exact ⟨rfl, rfl⟩
  | succ k ih =>
    rw [show oclEvents (k + 1) = oclEvents k ++ oclRoundEvents from rfl,
      List.count_append, List.count_append, ih.1, ih.2,
      show List.count OclEvent.readbackOutput oclRoundEvents = 1 from by decide,
      show List.count OclEvent.uploadInput oclRoundEvents = 1 from by decide]
    exact ⟨rfl, rfl⟩

/-! ### Error behaviour of the device stepper -/

theorem getLast_cons_of_getLast {α : Type} (a : α) (l : List α) (e : α)
    (h : l.getLast? = some e) : (a :: l).getLast? = some e := by
  cases l with
  | nil => simp at h
  | cons b l => rw [List.getLast?_cons_cons]; exact h

theorem attemptOps_trace (env : OclEnv) (ops : List OclOp) :
    (attemptOps env ops).2.Sublist ops ∧
      ∀ e, (attemptOps env ops).1 = .error e →
        (attemptOps env ops).2.getLast? = some e := by
  induction ops with
  | nil =>
    exact ⟨List.Sublist.refl _, fun e he => by simp [attemptOps] at he⟩
  | cons op ops ih =>
    by_cases hok : env.ok op = true
    · have h1 : attemptOps env (op :: ops) =
          ((attemptOps env ops).1, op :: (attemptOps env ops).2) := by
        simp [attemptOps, hok]
      rw [h1]
      exact ⟨List.Sublist.cons₂ op ih.1,
        fun e he => getLast_cons_of_getLast _ _ _ (ih.2 e he)⟩
    · have h1 : attemptOps env (op :: ops) = (.error op, [op]) := by
        simp [attemptOps, hok]
      rw [h1]
      refine ⟨List.Sublist.cons₂ op (List.nil_sublist ops), fun e he => ?_⟩
      injection he with h
      subst h
      rfl

theorem roundOps_stage (r : Nat) : ∀ o ∈ roundOps r, opStage o = r + 1 := by
  intro o ho
  fin_cases ho <;> rfl

theorem roundOps_nodup (r : Nat) : (roundOps r).Nodup := by
  simp [roundOps]

theorem setupOps_stage : ∀ o ∈ setupOps, opStage o = 0 := by
  intro o ho
  fin_cases ho <;> rfl

theorem oclRoundChecked_facts (env : OclEnv) (g : Nat → Nat → Nat) (n r : Nat)
    (current : List Nat) :
    (∀ o ∈ (oclRoundChecked env g n r current).2, opStage o = r + 1) ∧
      (oclRoundChecked env g n r current).2.Nodup ∧
      ∀ e, (oclRoundChecked env g n r current).1 = .error e →
        (oclRoundChecked env g n r current).2.getLast? = some e := by
  obtain ⟨hsub, herr⟩ := attemptOps_trace env (roundOps r)
  unfold oclRoundChecked
  rcases hA : attemptOps env (roundOps r) with ⟨res, t⟩
  rw [hA] at hsub herr
  cases res with
  | ok u =>
    exact ⟨fun o ho => roundOps_stage r o (hsub.subset ho),
      hsub.nodup (roundOps_nodup r), fun e he => by simp at he⟩
  | error e0 =>
    refine ⟨fun o ho => roundOps_stage r o (hsub.subset ho),
      hsub.nodup (roundOps_nodup r), fun e he => ?_⟩
    injection he with h
    subst h
    exact herr _ rfl

theorem oclLoopChecked_facts (env : OclEnv) (g : Nat → Nat → Nat) (n : Nat) :
    ∀ (rem r : Nat) (cur : List Nat),
      (∀ o ∈ (oclLoopChecked env g n rem r cur).2,
          r + 1 ≤ opStage o ∧ opStage o ≤ r + rem) ∧
        (oclLoopChecked env g n rem r cur).2.Nodup ∧
        ∀ e, (oclLoopChecked env g n rem r cur).1 = .error e →
          (oclLoopChecked env g n rem r cur).2.getLast? = some e := by
  intro rem
  induction rem with
  | zero =>
    intro r cur
    exact ⟨fun o ho => by simp [oclLoopChecked] at ho, by simp [oclLoopChecked],
      fun e he => by simp [oclLoopChecked] at he⟩
  | succ rem ih =>
    intro r cur
    obtain ⟨hstage, hnodup, herr⟩ := oclRoundChecked_facts env g n r cur
    rcases hR : oclRoundChecked env g n r cur with ⟨res, t⟩
    rw [hR] at hstage hnodup herr
    cases res with
    | error e0 =>
      have hun : oclLoopChecked env g n (rem + 1) r cur = (.error e0, t) := by
        simp [oclLoopChecked, hR]
      rw [hun]
      refine ⟨fun o ho => ?_, hnodup, fun e he => ?_⟩
      · have := hstage o ho
        omega
      · injection he with h
        subst h
        exact herr _ rfl
    | ok next =>
      obtain ⟨ihstage, ihnodup, iherr⟩ := ih (r + 1) next
      have hun : oclLoopChecked env g n (rem + 1) r cur =
          ((oclLoopChecked env g n rem (r + 1) next).1,
            t ++ (oclLoopChecked env g n rem (r + 1) next).2) := by
        simp [oclLoopChecked, hR]
      rw [hun]
      refine ⟨fun o ho => ?_, ?_, fun e he => ?_⟩
      · rcases List.mem_append.mp ho with h | h
        · have := hstage o h
          omega
        · have := ihstage o h
          omega
      · rw [List.nodup_append]
        refine ⟨hnodup, ihnodup, fun o ho hlo => ?_⟩
        have h1 := hstage o ho
        have h2 := (ihstage o hlo).1
        omega
      · rw [List.getLast?_append, iherr e he]
        rfl

theorem simulate_oclChecked_facts (input : List Nat) (iterations : Nat) (env : OclEnv)
    (g : Nat → Nat → Nat) :
    (simulate_oclChecked input iterations env g).2.Nodup ∧
      ∀ e, (simulate_oclChecked input iterations env g).1 = .error e →
        (simulate_oclChecked input iterations env g).2.getLast? = some e := by
  unfold simulate_oclChecked
  by_cases h1 : env.ok OclOp.findDevice = true
  case neg =>
    rw [if_neg h1]
    exact ⟨by decide, fun e he => by injection he with h; subst h; rfl⟩
  rw [if_pos h1]
  by_cases h2 : env.ok OclOp.buildContext = true
  case neg =>
    rw [if_neg h2]
    exact ⟨by decide, fun e he => by injection he with h; subst h; rfl⟩
  rw [if_pos h2]
  by_cases h3 : env.ok OclOp.createQueue = true
  case neg =>
    rw [if_neg h3]
    exact ⟨by decide, fun e he => by injection he with h; subst h; rfl⟩
  rw [if_pos h3]
  by_cases h4 : env.ok OclOp.buildProgram = true
  case neg =>
    rw [if_neg h4]
    exact ⟨by decide, fun e he => by injection he with h; subst h; rfl⟩
  rw [if_pos h4]
  obtain ⟨lstage, lnodup, lerr⟩ :=
    oclLoopChecked_facts env g input.length iterations 0 input
  refine ⟨?_, fun e he => ?_⟩
  · show (setupOps ++ (oclLoopChecked env g input.length iterations 0 input).2).Nodup
    rw [List.nodup_append]
    refine ⟨by decide, lnodup, fun o ho hlo => ?_⟩
    have h0 := setupOps_stage o ho
    have hge := (lstage o hlo).1
    omega
  · show (setupOps ++ (oclLoopChecked env g input.length iterations 0 input).2).getLast? =
      some e
    rw [List.getLast?_append, lerr e he]
    rfl

/-! ### Checked steppers equal the pure steppers -/

theorem foldlM_option_eq {α β : Type} (l : List α) (fM : β → α → Option β)
    (f : β → α → β) (hfm : ∀ b : β, ∀ a ∈ l, fM b a = some (f b a)) :
    ∀ b, l.foldlM fM b = some (l.foldl f b) := by
  induction l with
  | nil => intro b; rfl
  | cons a l ih =>
    intro b
    rw [List.foldlM_cons, hfm b a (List.mem_cons_self a l)]
    show List.foldlM fM (f b a) l = some (List.foldl f (f b a) l)
    exact ih (fun b' a' ha' => hfm b' a' (List.mem_cons_of_mem a ha')) (f b a)

theorem mem_enumFrom_snd {α : Type} :
    ∀ (l : List α) (s : Nat) (p : Nat × α), p ∈ List.enumFrom s l → p.2 ∈ l := by
  intro l
  induction l with
  | nil => intro s p h; simp [List.enumFrom] at h
  | cons a l ih =>
    intro s p h
    rw [List.enumFrom_cons] at h
    rcases List.mem_cons.mp h with h | h
    · rw [h]
      exact List.mem_cons_self a l
    · exact List.mem_cons_of_mem _ (ih (s + 1) p h)

theorem get_eq_some_getD (l : List Nat) (i : Nat) (h : i < l.length) :
    l.get? i = some (l.getD i 0) := by
  rw [List.get?_eq_getElem?, List.getElem?_eq_getElem h, List.getD_eq_getElem _ 0 h]

theorem simulateChecked_eq (input out indices : List Nat)
    (hlen : out.length = input.length) (h1 : 1 ≤ input.length)
    (hidx : ∀ idx ∈ indices, 1 ≤ idx ∧ idx + 2 ≤ input.length) :
    simulateChecked input out indices = some (simulate input out indices) := by
  unfold simulateChecked
  rw [if_pos (by omega)]
  refine foldlM_option_eq _ _
    (fun (o : List Nat) (p : Nat × Nat) =>
      o.set (1 + p.1) (apply_rule (code input p.2))) (fun o p hp => ?_) out
  have hp2 : p.2 ∈ indices :=
    (List.take_sublist _ _).subset
      (mem_enumFrom_snd _ 0 p (by simpa [List.enum_eq_enumFrom] using hp))
  obtain ⟨ha, hb⟩ := hidx p.2 hp2
  show (if 1 ≤ p.2 then _ else none) = _
  rw [if_pos ha, get_eq_some_getD _ _ (show p.2 - 1 < input.length by omega),
    get_eq_some_getD _ _ (show p.2 < input.length by omega),
    get_eq_some_getD _ _ (show p.2 + 1 < input.length by omega)]
  rfl

theorem simulate_rayonChecked_eq (input out : List Nat)
    (hlen : out.length = input.length) (h1 : 1 ≤ input.length) :
    simulate_rayonChecked input out = some (simulate_rayon input out) := by
  unfold simulate_rayonChecked
  rw [if_pos (by omega)]
  refine foldlM_option_eq _ _
    (fun o idx => o.set (idx + 1) (apply_rule (code input (idx + 1))))
    (fun o idx hid => ?_) out
  have h2 : idx < input.length - 2 := List.mem_range.mp hid
  rw [get_eq_some_getD _ _ (show idx + 1 - 1 < input.length by omega),
    get_eq_some_getD _ _ (show idx + 1 < input.length by omega),
    get_eq_some_getD _ _ (show idx + 1 + 1 < input.length by omega)]
  rfl

/-! ## Claim theorems -/

/-- Claim C1 (amended): for every generation of length at least 3 and every
round count, the sequential backend (natural index order), the data-parallel
backend (under any schedule that processes the interior range exactly once)
and the vector backend produce identical final generations; the device
backend also agrees — including on population counts — provided every
round's device output allocation holds 0 at the two boundary positions
(e.g. zero-filled allocations), which the source itself does not establish. -/
theorem C1_backend_equivalence (input : List Nat) (k : Nat) (g : Nat → Nat → Nat)
    (order : List Nat) (h3 : 3 ≤ input.length)
    (hg : ∀ r, g r 0 = 0 ∧ g r (input.length - 1) = 0)
    (hord : order.Perm (List.range (input.length - 2))) :
    runRayon input k = runPolicy input k ∧
      runSimd input k = runPolicy input k ∧
      simulate_ocl input k g = runPolicy input k ∧
      runRayonSched input k order = runPolicy input k ∧
      countOnes (simulate_ocl input k g) = countOnes (runPolicy input k) := by
  rw [runPolicy_eq_hostRun, runRayon_eq_hostRun, runSimd_eq_hostRun input k h3,
    simulate_ocl_eq_hostRun input k g hg, runRayonSched_eq_hostRun input k order hord]
  exact ⟨rfl, rfl, rfl, rfl, rfl⟩

/-- Claim C1 witness, at the spec's worked example `[0,1,1,1,0]`. -/
theorem C1_backend_equivalence_witness :
    runRayon [0, 1, 1, 1, 0] 1 = runPolicy [0, 1, 1, 1, 0] 1 ∧
      runSimd [0, 1, 1, 1, 0] 1 = runPolicy [0, 1, 1, 1, 0] 1 ∧
      simulate_ocl [0, 1, 1, 1, 0] 1 gZero = runPolicy [0, 1, 1, 1, 0] 1 ∧
      runRayonSched [0, 1, 1, 1, 0] 1 [2, 0, 1] = runPolicy [0, 1, 1, 1, 0] 1 ∧
      countOnes (simulate_ocl [0, 1, 1, 1, 0] 1 gZero) =
        countOnes (runPolicy [0, 1, 1, 1, 0] 1) :=
  C1_backend_equivalence [0, 1, 1, 1, 0] 1 gZero [2, 0, 1] (by decide)
    (fun _ => ⟨rfl, rfl⟩) (by decide)

/-- Claim C1 counterexample: as literally stated the four-way identity is
false — with a device allocation holding 1 everywhere, the device backend
turns `[0,1,0]` into `[1,1,1]` after one round while the sequential backend
gives `[0,1,0]`. -/
theorem C1_backend_equivalence_cex :
    simulate_ocl [0, 1, 0] 1 (fun _ _ => 1) ≠ runPolicy [0, 1, 0] 1 := by
  decide

/-- Claim C2 (code bug): the source never zeroes its device buffers, so the
boundary cells of the readback are whatever the allocation held; on `[0,1,0]`
with an all-ones allocation, one round yields `[1,1,1]` — both boundary cells
are 1, not the 0 the boundary invariant demands. -/
theorem C2_device_boundary_garbage :
    simulate_ocl [0, 1, 0] 1 (fun _ _ => 1) = [1, 1, 1] ∧
      (simulate_ocl [0, 1, 0] 1 (fun _ _ => 1)).getD 0 0 ≠ 0 ∧
      (simulate_ocl [0, 1, 0] 1 (fun _ _ => 1)).getD 2 0 ≠ 0 := by
  decide

/-- Claim C3 (amended): every round of `simulate_ocl` performs its own host
transfers — it uploads `current` into a freshly built input buffer and reads
the whole output buffer back into host memory; over `k` rounds there are
exactly `k` uploads and `k` readbacks, not a single final readback. -/
theorem C3_per_round_transfers (k : Nat) :
    (oclEvents k).count OclEvent.readbackOutput = k ∧
      (oclEvents k).count OclEvent.uploadInput = k :=
  oclEvents_counts k

/-- Claim C3 counterexample: a two-round device run performs two host
readbacks, not exactly one after the final round. -/
theorem C3_per_round_transfers_cex :
    ¬((oclEvents 2).count OclEvent.readbackOutput = 1) := by
  decide

/-- Claim C4 (amended): for a previous generation `C` of length `n ≥ 3`, the
zero-initialised output buffer `O` of length `n`, and any ordered sequence of
target indices drawn from `1..n-2`, the sequential stepper pairs output slots
with target indices positionally — for `1 ≤ j ≤ min (n-2) indices.len`,
output slot `j` receives `rule(code at indices[j-1])`; every other entry of
`O` stays 0.  The write lands at the target index itself only when the
sequence is `1..n-2` in natural order. -/
theorem C4_positional_writes (input indices : List Nat) (n : Nat)
    (hn : input.length = n) (h3 : 3 ≤ n)
    (_hidx : ∀ idx ∈ indices, 1 ≤ idx ∧ idx + 2 ≤ n) :
    (∀ j, 1 ≤ j → j ≤ min (n - 2) indices.length →
      (simulate input (List.replicate n 0) indices).getD j 0 =
        apply_rule (code input (indices.getD (j - 1) 0))) ∧
      (∀ j, ¬(1 ≤ j ∧ j ≤ min (n - 2) indices.length) →
        (simulate input (List.replicate n 0) indices).getD j 0 = 0) ∧
      (simulate input (List.replicate n 0) indices).length = n := by
  subst hn
  refine ⟨fun j hj1 hj2 => ?_, fun j hj => ?_,
    by rw [simulate_length, List.length_replicate]⟩
  · rw [simulate_getD, if_pos ⟨hj1, hj2, by simp only [List.length_replicate]; omega⟩]
  · rw [simulate_getD, if_neg (by simp only [List.length_replicate]; omega),
      getD_replicate_zero]

/-- Claim C4 witness: on `C = [0,1,1,0]` with the zeroed length-4 buffer and
target sequence `[2]`, slot 1 receives the rule value of index 2 and slot 2
stays 0. -/
theorem C4_positional_writes_witness :
    (simulate [0, 1, 1, 0] (List.replicate 4 0) [2]).getD 1 0 =
        apply_rule (code [0, 1, 1, 0] 2) ∧
      (simulate [0, 1, 1, 0] (List.replicate 4 0) [2]).getD 2 0 = 0 :=
  ⟨(C4_positional_writes [0, 1, 1, 0] [2] 4 rfl (by decide) (by decide)).1 1
      (by decide) (by decide),
    (C4_positional_writes [0, 1, 1, 0] [2] 4 rfl (by decide) (by decide)).2.1 2
      (by decide)⟩

/-- Claim C4 counterexample: on `C = [0,1,1,0]` with zeroed output and target
sequence `[2]`, the claim predicts `O[2] = rule(code at 2)` with `O[1]` left
untouched at 0; the code writes slot 1 instead and leaves `O[2] = 0`. -/
theorem C4_positional_writes_cex :
    ¬((simulate [0, 1, 1, 0] [0, 0, 0, 0] [2]).getD 2 0 =
        apply_rule (code [0, 1, 1, 0] 2) ∧
      (simulate [0, 1, 1, 0] [0, 0, 0, 0] [2]).getD 1 0 = 0) := by
  decide

/-- Claim C5: for every generation length at least 3 — hence every residue of
`(n-2) mod 16` — and any output buffer, one vector round (batches plus scalar
tail) produces exactly the buffer one sequential round over the natural index
range produces. -/
theorem C5_simd_equals_sequential (input out : List Nat) (h3 : 3 ≤ input.length) :
    simulate_simd input out = simulate input out (List.range' 1 (input.length - 2)) := by
  rw [simulate_simd_eq_stepGen input out h3, simulate_nat_eq_stepGen]

/-- Claim C5 witness at length 21 (one full 16-lane batch plus a tail of 3). -/
theorem C5_simd_equals_sequential_witness :
    simulate_simd [1, 0, 1, 1, 0, 0, 1, 0, 1, 1, 1, 0, 0, 0, 1, 0, 1, 1, 0, 1, 0]
        (List.replicate 21 0) =
      simulate [1, 0, 1, 1, 0, 0, 1, 0, 1, 1, 1, 0, 0, 0, 1, 0, 1, 1, 0, 1, 0]
        (List.replicate 21 0) (List.range' 1 19) :=
  C5_simd_equals_sequential _ _ (by decide)

/-- Claim C6 (amended): for generations of length 1 or 2 only the vector
backend is a no-op; with at least one round the sequential and data-parallel
drivers end on the zero-initialised output buffer (population 0 regardless of
the input), and the device backend returns the final round's raw allocation;
with zero rounds every backend returns the input.  Length 0 is excluded: with
at least one round the sequential and data-parallel steppers panic taking the
slice `out[1..=0]` of the empty output buffer instead of completing a
round. -/
theorem C6_short_generations (input : List Nat) (k : Nat) (g : Nat → Nat → Nat)
    (_h1 : 1 ≤ input.length) (h3 : input.length < 3) :
    runSimd input k = input ∧
      (1 ≤ k →
        runPolicy input k = List.replicate input.length 0 ∧
          runRayon input k = List.replicate input.length 0 ∧
          simulate_ocl input k g = (List.range input.length).map (g (k - 1))) ∧
      (k = 0 →
        runPolicy input k = input ∧ runRayon input k = input ∧
          simulate_ocl input k g = input) := by
  refine ⟨runSimd_short input k h3,
    fun hk => ⟨runPolicy_short input k h3 hk, runRayon_short input k h3 hk,
      simulate_ocl_short input k g h3 hk⟩,
    fun hk => ?_⟩
  subst hk
  exact ⟨rfl, rfl, rfl⟩

/-- Claim C6 witness on the length-2 generation `[1,0]` and one round. -/
theorem C6_short_generations_witness :
    runSimd [1, 0] 1 = [1, 0] ∧ runPolicy [1, 0] 1 = [0, 0] ∧
      simulate_ocl [1, 0] 1 gFive = [5, 5] :=
  ⟨(C6_short_generations [1, 0] 1 gFive (by decide) (by decide)).1,
    ((C6_short_generations [1, 0] 1 gFive (by decide) (by decide)).2.1
        (by decide)).1.trans (by decide),
    ((C6_short_generations [1, 0] 1 gFive (by decide) (by decide)).2.1
        (by decide)).2.2.trans (by decide)⟩

/-- Claim C6 counterexample: one sequential round on the length-2 generation
`[1,0]` returns `[0,0]`, not the input. -/
theorem C6_short_generations_cex : ¬(runPolicy [1, 0] 1 = [1, 0]) := by
  decide

/-- Claim C7: whenever the device stepper fails, the failing operation is the
last one attempted (the run aborts at once), no operation is attempted twice
(nothing is retried), and the caller's output buffer is left exactly as it
was (the final copy into it runs only on success). -/
theorem C7_error_aborts (input out : List Nat) (iterations : Nat) (env : OclEnv)
    (g : Nat → Nat → Nat) (e : OclOp)
    (herr : (simulate_oclChecked input iterations env g).1 = .error e) :
    oclCallerOut input out iterations env g = out ∧
      (simulate_oclChecked input iterations env g).2.getLast? = some e ∧
      ∀ o : OclOp, (simulate_oclChecked input iterations env g).2.count o ≤ 1 := by
  obtain ⟨hnodup, herrL⟩ := simulate_oclChecked_facts input iterations env g
  exact ⟨by simp only [oclCallerOut, herr], herrL e herr,
    fun o => List.nodup_iff_count_le_one.mp hnodup o⟩

/-- Claim C7 witness: with the round-1 kernel launch failing, a three-round
run leaves the caller's buffer `[9,9,9]` untouched. -/
theorem C7_error_aborts_witness :
    oclCallerOut [0, 1, 0] [9, 9, 9] 3 envEnqFail gZero = [9, 9, 9] :=
  (C7_error_aborts [0, 1, 0] [9, 9, 9] 3 envEnqFail gZero (OclOp.enqueueKernel 1)
    rfl).1

/-- Claim C8: the rule function matches the rule-110 table
`[0,1,1,1,0,1,1,0]` on codes 0..7 and returns 0 exactly on codes 0, 4, 7. -/
theorem C8_rule_table (c : Nat) (hc : c < 8) :
    apply_rule c = [0, 1, 1, 1, 0, 1, 1, 0].getD c 0 ∧
      (apply_rule c = 0 ↔ c = 0 ∨ c = 4 ∨ c = 7) := by
  interval_cases c <;> exact ⟨rfl, by decide⟩

/-- Claim C8 witness at code 6. -/
theorem C8_rule_table_witness :
    apply_rule 6 = [0, 1, 1, 1, 0, 1, 1, 0].getD 6 0 ∧
      (apply_rule 6 = 0 ↔ 6 = 0 ∨ 6 = 4 ∨ 6 = 7) :=
  C8_rule_table 6 (by decide)

/-- Claim C9 (amended): the all-zero generation of any length `n ≥ 1` is
preserved, for any round count, by the sequential, data-parallel and vector
backends — and by the device backend provided each round's allocation holds 0
at the positions the kernel does not write; the population count is 0.
Length 0 is excluded: with at least one round the sequential and
data-parallel steppers panic slicing `out[1..=0]` of the empty buffer. -/
theorem C9_zero_preserved (n k : Nat) (g : Nat → Nat → Nat) (_h1 : 1 ≤ n)
    (hg : ∀ r, g r 0 = 0 ∧ g r (n - 1) = 0) :
    runPolicy (List.replicate n 0) k = List.replicate n 0 ∧
      runRayon (List.replicate n 0) k = List.replicate n 0 ∧
      runSimd (List.replicate n 0) k = List.replicate n 0 ∧
      simulate_ocl (List.replicate n 0) k g = List.replicate n 0 ∧
      countOnes (runPolicy (List.replicate n 0) k) = 0 := by
  have hlen : (List.replicate n (0 : Nat)).length = n := List.length_replicate n 0
  have hp : runPolicy (List.replicate n 0) k = List.replicate n 0 := by
    rw [runPolicy_eq_hostRun, hostRun_zero]
  have hsimd : runSimd (List.replicate n 0) k = List.replicate n 0 := by
    by_cases h3 : 3 ≤ n
    · rw [runSimd_eq_hostRun _ _ (by rw [hlen]; exact h3), hostRun_zero]
    · exact runSimd_short _ _ (by rw [hlen]; omega)
  refine ⟨hp, ?_, hsimd, ?_, ?_⟩
  · rw [runRayon_eq_hostRun, hostRun_zero]
  · rw [simulate_ocl_eq_hostRun _ _ _ (fun r => by rw [hlen]; exact hg r), hostRun_zero]
  · rw [hp]
    exact countOnes_replicate_zero n

/-- Claim C9 witness at length 4, two rounds, zero-filled allocations. -/
theorem C9_zero_preserved_witness :
    runPolicy (List.replicate 4 0) 2 = List.replicate 4 0 ∧
      runRayon (List.replicate 4 0) 2 = List.replicate 4 0 ∧
      runSimd (List.replicate 4 0) 2 = List.replicate 4 0 ∧
      simulate_ocl (List.replicate 4 0) 2 gZero = List.replicate 4 0 ∧
      countOnes (runPolicy (List.replicate 4 0) 2) = 0 :=
  C9_zero_preserved 4 2 gZero (by decide) (fun _ => ⟨rfl, rfl⟩)

/-- Claim C9 counterexample: the device backend maps the all-zero length-3
generation to `[1,0,1]` when the round's allocation holds 1 everywhere. -/
theorem C9_zero_preserved_cex :
    ¬(simulate_ocl (List.replicate 3 0) 1 (fun _ _ => 1) = List.replicate 3 0) := by
  decide

/-- Claim C10: with equal buffer lengths `n ≥ 1` and an index sequence whose
entries are interior (`1 ≤ idx ≤ n-2`), every slice bound and index access of
one sequential round and one data-parallel round is in bounds: the fully
checked steppers succeed and return exactly the unchecked results. -/
theorem C10_no_panic (input out indices : List Nat)
    (hlen : out.length = input.length) (h1 : 1 ≤ input.length)
    (hidx : ∀ idx ∈ indices, 1 ≤ idx ∧ idx + 2 ≤ input.length) :
    simulateChecked input out indices = some (simulate input out indices) ∧
      simulate_rayonChecked input out = some (simulate_rayon input out) :=
  ⟨simulateChecked_eq input out indices hlen h1 hidx,
    simulate_rayonChecked_eq input out hlen h1⟩

/-- Claim C10 witness on length-4 buffers with target sequence `[2, 1]`. -/
theorem C10_no_panic_witness :
    simulateChecked [0, 1, 1, 0] [5, 5, 5, 5] [2, 1] =
        some (simulate [0, 1, 1, 0] [5, 5, 5, 5] [2, 1]) ∧
      simulate_rayonChecked [0, 1, 1, 0] [5, 5, 5, 5] =
        some (simulate_rayon [0, 1, 1, 0] [5, 5, 5, 5]) :=
  C10_no_panic [0, 1, 1, 0] [5, 5, 5, 5] [2, 1] (by decide) (by decide) (by decide)

end Rule110
